import Mathlib

/-!
Verification development for the agentic chatbot client.

The embedding below translates the two source files:
* the chat page component (WebSocket transcript reducer `websocket.onmessage`,
  `websocket.onclose`, `sendMessage`, and the inline renderer `formatMessage`);
* the `SearchResults` component (category / item shaping).

Strings are modelled as `List Char` ( `chars s` converts a Lean string
literal); JSON objects are modelled as structures with `Option` fields,
absent fields being `none`, and JavaScript truthiness is spelled out at
each use site.
-/

namespace AgenticChat

/-- Characters of a string literal; JS strings are modelled as `List Char`. -/
def chars (s : String) : List Char := s.data

/-- Whitespace for JS `String.prototype.trim` (space, tab, LF, CR, VT, FF). -/
def jsWhitespace (c : Char) : Bool :=
  c == ' ' || c == '\t' || c == '\n' || c == '\r' ||
  c == Char.ofNat 11 || c == Char.ofNat 12

/-- JS `s.trim()`: strip leading and trailing whitespace. -/
def jsTrim (l : List Char) : List Char :=
  ((l.dropWhile jsWhitespace).reverse.dropWhile jsWhitespace).reverse

/-- A search result item (`item` in SearchResults.tsx); all fields optional,
`thumbnails` absent is modelled as the empty sequence. -/
structure ResultItem where
  image : Option (List Char) := none
  thumbnails : List (List Char) := []
  title : Option (List Char) := none
  date : Option (List Char) := none
  publish_time : Option (List Char) := none
  body : Option (List Char) := none
  href : Option (List Char) := none
  url : Option (List Char) := none
  link : Option (List Char) := none
deriving DecidableEq

/-- The `search_results` payload: an ordered mapping from category name to a
sequence of possibly-null items (`Object.keys` order is insertion order). -/
abbrev SearchResultSet := List (List Char × List (Option ResultItem))

/-- A transcript entry as stored in the `messages` state: the union of the
fields a parsed inbound frame and a local user message (`{...messageData,
user: "You"}`) may carry.  `chain_of_thought` absent is falsy, hence `false`. -/
structure Msg where
  chain_of_thought : Bool := false
  chain_of_thought_message : Option (List Char) := none
  message : Option (List Char) := none
  search_results : Option SearchResultSet := none
  user : Option (List Char) := none
  id : Option Nat := none
  user_id : Option (List Char) := none
  session_id : Option (List Char) := none
  user_message : Option (List Char) := none
  search : Option Bool := none
deriving DecidableEq

/-- An inbound frame as delivered by the server (section 6 of the design:
`chain_of_thought`, `chain_of_thought_message`, `message`, `search_results`);
it carries no `user` field. -/
structure InEvent where
  chain_of_thought : Bool := false
  chain_of_thought_message : Option (List Char) := none
  message : Option (List Char) := none
  search_results : Option SearchResultSet := none
deriving DecidableEq

/-- An inbound frame seen as a transcript entry (the parsed `data` object). -/
def InEvent.toMsg (e : InEvent) : Msg :=
  { chain_of_thought := e.chain_of_thought
    chain_of_thought_message := e.chain_of_thought_message
    message := e.message
    search_results := e.search_results }

/-- The filter predicate of the reasoning branch of `websocket.onmessage`:
`msg?.chain_of_thought || msg?.user === "You"`. -/
def keepOnReasoning (m : Msg) : Bool :=
  m.chain_of_thought || m.user == some (chars "You")

/-- The condition of the final branch of `websocket.onmessage`:
`prev?.length > 0 && !prev[prev.length - 1]?.chain_of_thought &&
prev[prev.length - 1]?.user !== "You"`. -/
def replaceLast (prev : List Msg) : Bool :=
  match prev.getLast? with
  | some l => !l.chain_of_thought && !(l.user == some (chars "You"))
  | none => false

/-- The `setMessages` updater inside `websocket.onmessage`: fold one parsed
frame into the transcript.  `prev?.slice(0, -1)` is `List.dropLast`. -/
def foldEvent (prev : List Msg) (data : Msg) : List Msg :=
  if data.chain_of_thought then
    prev.filter keepOnReasoning ++ [data]
  else
    if replaceLast prev then prev.dropLast ++ [data]
    else prev ++ [data]

/-- Fold a whole sequence of frames in arrival order. -/
def foldEvents (prev : List Msg) (evs : List Msg) : List Msg :=
  evs.foldl foldEvent prev

/-- The outbound request `messageData` built by `sendMessage`. -/
structure OutMsg where
  id : Nat
  user_id : List Char
  session_id : List Char
  user_message : List Char
  search : Bool
deriving DecidableEq

/-- The entry appended on submission: `{ ...messageData, user: "You" }`. -/
def OutMsg.toEntry (o : OutMsg) : Msg :=
  { user := some (chars "You")
    id := some o.id
    user_id := some o.user_id
    session_id := some o.session_id
    user_message := some o.user_message
    search := some o.search }

/-- The component state touched by the claims: `messages`, `input`, `loading`,
`ws` and `searchEnabled`.  `ws = none` models the null handle before the
effect runs; `ws = some true` an open socket; `ws = some false` a socket that
has closed (the component never clears the handle on close). -/
structure ChatState where
  messages : List Msg
  input : List Char
  loading : Bool
  ws : Option Bool
  searchEnabled : Bool
deriving DecidableEq

/-- `sendMessage`.  The guard is `ws && input.trim()` (handle non-null and
trimmed text non-empty); on acceptance the untrimmed `input` is placed in the
request, the user entry is appended, the input clears and `loading` is set.
The second component is the frame actually delivered over the wire: a send on
a closed socket is discarded by the socket, so only an open socket delivers. -/
def sendMessage (s : ChatState) (now : Nat) : ChatState × Option OutMsg :=
  if s.ws.isSome && !(jsTrim s.input == []) then
    let messageData : OutMsg :=
      { id := now
        user_id := chars "user123"
        session_id := chars "session123"
        user_message := s.input
        search := s.searchEnabled }
    ({ s with
        messages := s.messages ++ [messageData.toEntry]
        input := []
        loading := true },
     if s.ws == some true then some messageData else none)
  else (s, none)

/-- The `websocket.onmessage` handler at the state level: only `messages`
changes. -/
def onmessage (s : ChatState) (e : InEvent) : ChatState :=
  { s with messages := foldEvent s.messages e.toMsg }

/-- The `websocket.onclose` handler: its body only logs, so the component
state is untouched; the socket itself is now closed. -/
def onclose (s : ChatState) : ChatState :=
  { s with ws := s.ws.map (fun _ => false) }

/-- An inline display segment produced by `formatMessage`: plain text, a
`<strong>` span, or the `<br />` closing each line's row. -/
inductive Segment where
  | plain : List Char → Segment
  | strong : List Char → Segment
  | br : Segment
deriving DecidableEq

/-- Accumulator pass for `text.split("\n")` (keeps empty lines and a trailing
empty line, exactly as JS `split` does). -/
def splitNL (cur : List Char) : List Char → List (List Char)
  | [] => [cur.reverse]
  | c :: rest =>
    if c == '\n' then cur.reverse :: splitNL [] rest
    else splitNL (c :: cur) rest

/-- `text.split("\n")`. -/
def splitNewline (text : List Char) : List (List Char) := splitNL [] text

/-- Two leading asterisks: JS `chunk.startsWith("**")`; applied to the
reversed chunk it is `chunk.endsWith("**")`. -/
def startsStars : List Char → Bool
  | a :: b :: _ => a == '*' && b == '*'
  | _ => false

/-- Position of the closing `**` for the lazy regex `\*\*.*?\*\*`: the first
index holding two consecutive asterisks, scanning left to right; `.` does not
match a newline, so the scan aborts at one. -/
def findCloser : List Char → Option Nat
  | [] => none
  | c :: rest =>
    if startsStars (c :: rest) then some 0
    else if c == '\n' then none
    else (findCloser rest).map (· + 1)

/-- One pass of JS `line.split(/(\*\*.*?\*\*)/)`: the split keeps the captured
delimiter matches and the (possibly empty) interstitial chunks.  A match
starts at the leftmost `**` that has a closing `**` further right (lazy: the
nearest one); fuel decreases by one per step while at least one character is
consumed, so `length + 1` fuel always suffices. -/
def splitGoF : Nat → List Char → List Char → List (List Char)
  | 0, cur, l => [cur.reverse ++ l]
  | _ + 1, cur, [] => [cur.reverse]
  | fuel + 1, cur, '*' :: '*' :: rest =>
    (match findCloser rest with
     | some k =>
       cur.reverse :: ('*' :: '*' :: rest.take (k + 2)) ::
         splitGoF fuel [] (rest.drop (k + 2))
     | none => splitGoF fuel ('*' :: cur) ('*' :: rest))
  | fuel + 1, cur, c :: rest => splitGoF fuel (c :: cur) rest

/-- `line.split(/(\*\*.*?\*\*)/)`. -/
def splitDelim (line : List Char) : List (List Char) :=
  splitGoF (line.length + 1) [] line

/-- Map one chunk of the delimiter split to a segment:
`chunk.startsWith("**") && chunk.endsWith("**") ? <strong>{chunk.slice(2,-2)}
</strong> : chunk`.  JS `slice(2, -2)` is `(drop 2).take (length - 4)` (empty
once the length is at most 4). -/
def chunkSeg (chunk : List Char) : Segment :=
  if startsStars chunk && startsStars chunk.reverse then
    Segment.strong ((chunk.drop 2).take (chunk.length - 4))
  else Segment.plain chunk

/-- `formatMessage`: one row per line, each row being the chunk segments of
the delimiter split followed by the `<br />`. -/
def formatMessage (text : List Char) : List (List Segment) :=
  (splitNewline text).map (fun line => (splitDelim line).map chunkSeg ++ [Segment.br])

/-- The shaping in SearchResults.tsx: keep the categories whose raw sequence
is non-empty (`results[category] && results[category].length > 0`), and
within each the items surviving `filter(Boolean)`. -/
def SearchResults (results : SearchResultSet) : SearchResultSet :=
  (results.filter (fun p => 0 < p.2.length)).map
    (fun p => (p.1, p.2.filter Option.isSome))

/-- The images rendered for one item card, in document order: one `<img>`
guarded by `item?.image` truthiness (an empty string is falsy) and an
independent second `<img>` guarded by `item?.thumbnails?.length > 0` showing
`item?.thumbnails[0]`. -/
def displayImages (it : ResultItem) : List (List Char) :=
  (match it.image with
   | some u => if u == [] then [] else [u]
   | none => []) ++
  (match it.thumbnails with
   | [] => []
   | t :: _ => [t])

/-! ### Helper lemmas on the reducer -/

theorem foldEvents_nil (prev : List Msg) : foldEvents prev [] = prev := rfl

theorem foldEvents_cons (prev : List Msg) (e : Msg) (evs : List Msg) :
    foldEvents prev (e :: evs) = foldEvents (foldEvent prev e) evs := rfl

theorem keepOnReasoning_of_user (m : Msg) (hu : m.user = some (chars "You")) :
    keepOnReasoning m = true := by
  simp [keepOnReasoning, hu]

theorem keepOnReasoning_of_reasoning (m : Msg) (hc : m.chain_of_thought = true) :
    keepOnReasoning m = true := by
  simp [keepOnReasoning, hc]

theorem replaceLast_concat (prev : List Msg) (m : Msg) :
    replaceLast (prev ++ [m]) =
      (!m.chain_of_thought && !(m.user == some (chars "You"))) := by
  simp [replaceLast, List.getLast?_concat]

theorem filter_keepOnReasoning_idem (l : List Msg) :
    (l.filter keepOnReasoning).filter keepOnReasoning = l.filter keepOnReasoning := by
  induction l with
  | nil => rfl
  | cons m t ih =>
    by_cases hm : keepOnReasoning m = true <;>
      simp [List.filter_cons, hm, ih]

theorem foldEvents_reasoning (rs : List Msg) (prev : List Msg) (hne : rs ≠ [])
    (hr : ∀ m ∈ rs, m.chain_of_thought = true) :
    foldEvents prev rs = prev.filter keepOnReasoning ++ rs := by
  induction rs generalizing prev with
  | nil => exact absurd rfl hne
  | cons r rs' ih =>
    have hrc : r.chain_of_thought = true := hr r (List.mem_cons_self r rs')
    have hstep : foldEvent prev r = prev.filter keepOnReasoning ++ [r] := by
      simp [foldEvent, hrc]
    rw [foldEvents_cons, hstep]
    cases rs' with
    | nil => rfl
    | cons r' rs'' =>
      rw [ih (prev.filter keepOnReasoning ++ [r]) (by simp)
        (fun m hm => hr m (List.mem_cons_of_mem r hm))]
      rw [List.filter_append, filter_keepOnReasoning_idem]
      simp [List.filter_cons, keepOnReasoning_of_reasoning r hrc]

theorem foldEvents_final_replace (fs : List Msg) (prev : List Msg) (flast : Msg)
    (hlast : fs.getLast? = some flast)
    (hf : ∀ f ∈ fs, f.chain_of_thought = false ∧ f.user ≠ some (chars "You"))
    (hrep : replaceLast prev = true) :
    foldEvents prev fs = prev.dropLast ++ [flast] := by
  induction fs generalizing prev with
  | nil => simp at hlast
  | cons f fs' ih =>
    obtain ⟨hfc, hfu⟩ := hf f (List.mem_cons_self f fs')
    have hstep : foldEvent prev f = prev.dropLast ++ [f] := by
      simp [foldEvent, hfc, hrep]
    rw [foldEvents_cons, hstep]
    cases fs' with
    | nil =>
      simp only [List.getLast?_singleton, Option.some.injEq] at hlast
      subst hlast
      rfl
    | cons f' fs'' =>
      have hrep' : replaceLast (prev.dropLast ++ [f]) = true := by
        rw [replaceLast_concat, hfc]
        simp [hfu]
      rw [ih _ (by rw [← List.getLast?_cons_cons (a := f)]; exact hlast)
        (fun m hm => hf m (List.mem_cons_of_mem f hm)) hrep']
      rw [List.dropLast_concat]

theorem foldEvents_final_append (fs : List Msg) (prev : List Msg) (flast : Msg)
    (hlast : fs.getLast? = some flast)
    (hf : ∀ f ∈ fs, f.chain_of_thought = false ∧ f.user ≠ some (chars "You"))
    (hrep : replaceLast prev = false) :
    foldEvents prev fs = prev ++ [flast] := by
  cases fs with
  | nil => simp at hlast
  | cons f fs' =>
    obtain ⟨hfc, hfu⟩ := hf f (List.mem_cons_self f fs')
    have hstep : foldEvent prev f = prev ++ [f] := by
      simp [foldEvent, hfc, hrep]
    rw [foldEvents_cons, hstep]
    cases fs' with
    | nil =>
      simp only [List.getLast?_singleton, Option.some.injEq] at hlast
      subst hlast
      rfl
    | cons f' fs'' =>
      have hrep' : replaceLast (prev ++ [f]) = true := by
        rw [replaceLast_concat, hfc]
        simp [hfu]
      rw [foldEvents_final_replace (f' :: fs'') _ flast
        (by rw [← List.getLast?_cons_cons (a := f)]; exact hlast)
        (fun m hm => hf m (List.mem_cons_of_mem f hm)) hrep']
      rw [List.dropLast_concat]

theorem mem_foldEvent_user (prev : List Msg) (d m : Msg) (hm : m ∈ prev)
    (hu : m.user = some (chars "You")) : m ∈ foldEvent prev d := by
  rw [foldEvent]
  by_cases hd : d.chain_of_thought = true
  · simp only [hd, if_pos]
    exact List.mem_append_left _
      (List.mem_filter.mpr ⟨hm, keepOnReasoning_of_user m hu⟩)
  · rw [if_neg hd]
    by_cases hrep : replaceLast prev = true
    · rw [if_pos hrep]
      rcases prev.eq_nil_or_concat' with rfl | ⟨xs, x, rfl⟩
      · simp [replaceLast] at hrep
      · rw [replaceLast_concat] at hrep
        have hxu : ¬ x.user = some (chars "You") := by
          intro hx
          simp [hx] at hrep
        rcases List.mem_append.mp hm with hxs | hx
        · exact List.mem_append_left _ (by simp [List.dropLast_concat, hxs])
        · rw [List.mem_singleton] at hx
          exact absurd (hx ▸ hu) hxu
    · rw [if_neg hrep]
      exact List.mem_append_left _ hm

theorem mem_foldEvents_user (evs : List Msg) (prev : List Msg) (m : Msg)
    (hm : m ∈ prev) (hu : m.user = some (chars "You")) :
    m ∈ foldEvents prev evs := by
  induction evs generalizing prev with
  | nil => exact hm
  | cons e evs' ih =>
    rw [foldEvents_cons]
    exact ih _ (mem_foldEvent_user prev e m hm hu)

theorem InEvent.toMsg_user (e : InEvent) : e.toMsg.user = none := rfl

theorem InEvent.toMsg_chain (e : InEvent) :
    e.toMsg.chain_of_thought = e.chain_of_thought := rfl

/-! ### Concrete states and events used by witnesses and counterexamples -/

/-- A reasoning frame carrying note "thinking a". -/
def rEvA : InEvent :=
  { chain_of_thought := true, chain_of_thought_message := some (chars "thinking a") }

/-- A reasoning frame carrying note "thinking b". -/
def rEvB : InEvent :=
  { chain_of_thought := true, chain_of_thought_message := some (chars "thinking b") }

/-- A final frame carrying a partial answer. -/
def finA : InEvent := { message := some (chars "partial answer") }

/-- A final frame carrying the finished answer. -/
def finB : InEvent := { message := some (chars "final answer") }

/-- A user transcript entry. -/
def userEntryEx : Msg :=
  { user := some (chars "You"), user_message := some (chars "hi") }

/-! ### Claims C1 and C2: the reduction rules of `websocket.onmessage` -/

/-- C1 counterexample: folding two consecutive reasoning events into the
empty transcript leaves TWO reasoning entries, not exactly one — the filter
`msg?.chain_of_thought || msg?.user === "You"` retains the earlier reasoning
placeholder, so reasoning updates append rather than replace in place. -/
theorem reasoning_burst_two_entries :
    foldEvents [] [rEvA.toMsg, rEvB.toMsg] = [rEvA.toMsg, rEvB.toMsg] ∧
    ((foldEvents [] [rEvA.toMsg, rEvB.toMsg]).filter
        (fun m => m.chain_of_thought)).length = 2 ∧
    rEvA.toMsg ≠ rEvB.toMsg := by
  decide

/-- C1 (amended): folding a non-empty consecutive sequence of reasoning
events (chainOfThought = true) into any starting transcript keeps exactly the
prior entries passing the user-or-reasoning filter and appends every
reasoning event in order; hence the last entry equals the last event, user
entries are never lost, and one reasoning entry accumulates per event rather
than at most one existing in place. -/
theorem reasoning_events_accumulate (prev : List Msg) (rs : List InEvent)
    (hne : rs ≠ []) (hr : ∀ e ∈ rs, e.chain_of_thought = true) :
    foldEvents prev (rs.map InEvent.toMsg) =
      prev.filter keepOnReasoning ++ rs.map InEvent.toMsg ∧
    (foldEvents prev (rs.map InEvent.toMsg)).getLast? =
      (rs.getLast?).map InEvent.toMsg := by
  have hmain := foldEvents_reasoning (rs.map InEvent.toMsg) prev
    (by simpa using hne)
    (by
      intro m hm
      obtain ⟨e, he, rfl⟩ := List.mem_map.mp hm
      rw [InEvent.toMsg_chain]
      exact hr e he)
  refine ⟨hmain, ?_⟩
  rw [hmain, List.getLast?_append, ← List.getLast?_map]
  cases h : (rs.map InEvent.toMsg).getLast? with
  | none =>
    rw [List.getLast?_eq_none_iff] at h
    simp at h
    exact absurd h hne
  | some m => rfl

/-- C1 witness: the amended law evaluated on a user entry followed by a burst
of two reasoning events. -/
theorem reasoning_events_accumulate_witness :
    (foldEvents [userEntryEx] ([rEvA, rEvB].map InEvent.toMsg) =
      [userEntryEx].filter keepOnReasoning ++ [rEvA, rEvB].map InEvent.toMsg) ∧
    (foldEvents [userEntryEx] ([rEvA, rEvB].map InEvent.toMsg)).getLast? =
      ([rEvA, rEvB].getLast?).map InEvent.toMsg :=
  reasoning_events_accumulate [userEntryEx] [rEvA, rEvB] (by decide) (by decide)

/-- C2: a non-empty consecutive sequence of final events (chainOfThought
false or absent) coalesces.  If the last transcript entry exists, is not from
the user and is non-reasoning, the whole sequence replaces it, so the final
last entry equals the last final event and no intermediate final survives;
if the transcript is empty or its last entry is a user or reasoning entry,
the sequence produces exactly one appended entry, again the last event. -/
theorem final_events_coalesce (prev : List Msg) (fs : List InEvent)
    (flast : InEvent) (hlast : fs.getLast? = some flast)
    (hf : ∀ f ∈ fs, f.chain_of_thought = false) :
    (∀ l, prev.getLast? = some l → l.chain_of_thought = false →
        l.user ≠ some (chars "You") →
        foldEvents prev (fs.map InEvent.toMsg) = prev.dropLast ++ [flast.toMsg]) ∧
    ((prev = [] ∨ ∃ l, prev.getLast? = some l ∧
        (l.chain_of_thought = true ∨ l.user = some (chars "You"))) →
      foldEvents prev (fs.map InEvent.toMsg) = prev ++ [flast.toMsg]) := by
  have hlast' : (fs.map InEvent.toMsg).getLast? = some flast.toMsg := by
    rw [List.getLast?_map, hlast]
    rfl
  have hf' : ∀ m ∈ fs.map InEvent.toMsg,
      m.chain_of_thought = false ∧ m.user ≠ some (chars "You") := by
    intro m hm
    obtain ⟨e, he, rfl⟩ := List.mem_map.mp hm
    exact ⟨hf e he, by simp [InEvent.toMsg_user]⟩
  constructor
  · intro l hl hlc hlu
    refine foldEvents_final_replace _ _ _ hlast' hf' ?_
    simp [replaceLast, hl, hlc, hlu]
  · intro h
    refine foldEvents_final_append _ _ _ hlast' hf' ?_
    rcases h with rfl | ⟨l, hl, hcase⟩
    · rfl
    · rcases hcase with hlc | hlu
      · simp [replaceLast, hl, hlc]
      · simp [replaceLast, hl, hlu]

/-- C2 witness: two streamed finals after a user entry append once and then
replace, leaving only the latest final. -/
theorem final_events_coalesce_witness :
    foldEvents [userEntryEx] ([finA, finB].map InEvent.toMsg) =
      [userEntryEx] ++ [finB.toMsg] :=
  (final_events_coalesce [userEntryEx] [finA, finB] finB (by decide)
      (by decide)).2
    (Or.inr ⟨userEntryEx, by decide, Or.inr (by decide)⟩)

/-! ### Claims C4 to C7 and C10: `sendMessage`, `websocket.onclose`, `loading` -/

/-- A state with an open socket and a non-blank input, ready to submit. -/
def stateReady : ChatState :=
  { messages := [], input := chars "hi", loading := false,
    ws := some true, searchEnabled := false }

/-- A state whose input is whitespace-only. -/
def stateBlank : ChatState :=
  { messages := [], input := chars "   ", loading := false,
    ws := some true, searchEnabled := false }

/-- A state whose socket has closed while the handle is still set. -/
def stateClosed : ChatState :=
  { messages := [], input := chars "hi", loading := false,
    ws := some false, searchEnabled := false }

/-- A state with the pending flag set, mid-turn. -/
def stateLoading : ChatState :=
  { messages := [userEntryEx], input := [], loading := true,
    ws := some true, searchEnabled := false }

/-- A state with an open socket and input carrying surrounding whitespace. -/
def stateUntrimmed : ChatState :=
  { messages := [], input := chars " hi ", loading := false,
    ws := some true, searchEnabled := true }

/-- Unfolding of `sendMessage` with the let-bound request written out. -/
theorem sendMessage_eq (s : ChatState) (now : Nat) :
    sendMessage s now =
      if s.ws.isSome && !(jsTrim s.input == []) then
        ({ s with
            messages := s.messages ++ [OutMsg.toEntry
              { id := now, user_id := chars "user123",
                session_id := chars "session123",
                user_message := s.input, search := s.searchEnabled }],
            input := [], loading := true },
         if s.ws == some true then
           some { id := now, user_id := chars "user123",
                  session_id := chars "session123",
                  user_message := s.input, search := s.searchEnabled }
         else none)
      else (s, none) := rfl

/-- C4: an accepted submission appends exactly one new user-origin entry, and
that entry survives every sequence of inbound events folded afterwards (the
reasoning filter keeps `user === "You"` entries and the coalescing rule never
replaces a last entry from the user); the starting transcript, hence any
event traffic processed before the submission, is arbitrary. -/
theorem user_submission_preserved (s : ChatState) (now : Nat)
    (hws : s.ws.isSome = true) (ht : jsTrim s.input ≠ []) :
    ∃ e : Msg, (sendMessage s now).1.messages = s.messages ++ [e] ∧
      e.user = some (chars "You") ∧
      ∀ evs : List Msg, e ∈ foldEvents (s.messages ++ [e]) evs := by
  have hg : (s.ws.isSome && !(jsTrim s.input == [])) = true := by
    simp [hws, ht]
  refine ⟨OutMsg.toEntry
    { id := now, user_id := chars "user123", session_id := chars "session123",
      user_message := s.input, search := s.searchEnabled }, ?_, rfl, ?_⟩
  · rw [sendMessage_eq, if_pos hg]
  · intro evs
    exact mem_foldEvents_user evs _ _
      (List.mem_append_right _ (List.mem_singleton_self _)) rfl

/-- C4 witness: the preservation law evaluated at a ready state. -/
theorem user_submission_preserved_witness :
    ∃ e : Msg, (sendMessage stateReady 3).1.messages = stateReady.messages ++ [e] ∧
      e.user = some (chars "You") ∧
      ∀ evs : List Msg, e ∈ foldEvents (stateReady.messages ++ [e]) evs :=
  user_submission_preserved stateReady 3 (by decide) (by decide)

/-- C5 counterexample: with input " hi " the outbound request carries the
text exactly as entered, " hi ", although the trimmed text is "hi" — the
guard trims only for the emptiness test, the payload field does not. -/
theorem request_not_trimmed :
    ((sendMessage stateUntrimmed 7).2.map OutMsg.user_message) =
      some (chars " hi ") ∧
    jsTrim (chars " hi ") = chars "hi" ∧
    chars " hi " ≠ chars "hi" := by
  decide

/-- C5 (amended): every submission accepted on an open socket sends an
outbound request carrying the clock-derived id, the fixed user identifier
"user123", the fixed session identifier "session123", the input text exactly
as entered (not trimmed), and the search toggle. -/
theorem request_fields (s : ChatState) (now : Nat)
    (hws : s.ws = some true) (ht : jsTrim s.input ≠ []) :
    (sendMessage s now).2 =
      some { id := now, user_id := chars "user123",
             session_id := chars "session123",
             user_message := s.input, search := s.searchEnabled } := by
  have hg : (s.ws.isSome && !(jsTrim s.input == [])) = true := by
    simp [hws, ht]
  have hbeq : (s.ws == some true) = true := by
    rw [hws]
    rfl
  rw [sendMessage_eq, if_pos hg, if_pos hbeq]

/-- C5 witness: the request fields at a concrete state and clock value. -/
theorem request_fields_witness :
    (sendMessage stateUntrimmed 7).2 =
      some { id := 7, user_id := chars "user123",
             session_id := chars "session123",
             user_message := stateUntrimmed.input,
             search := stateUntrimmed.searchEnabled } :=
  request_fields stateUntrimmed 7 rfl (by decide)

/-- C6 counterexample: the `onclose` handler only logs, so with the pending
flag set before closure it is still set afterwards — the flag is not
cleared as the claim states. -/
theorem onclose_keeps_loading : ¬ (onclose stateLoading).loading = false := by
  decide

/-- C6 (amended): the connection-closed callback leaves the component state
alone: the transcript is unchanged and the pending flag keeps its prior value
(it is not cleared). -/
theorem onclose_noop (s : ChatState) :
    (onclose s).messages = s.messages ∧ (onclose s).loading = s.loading :=
  ⟨rfl, rfl⟩

/-- C7 counterexample: with the handle still set after the socket closed, a
submission passes the `ws && input.trim()` guard: an entry is appended and
the pending flag is set even though the connection is not open — the code
checks only that the handle exists. -/
theorem send_when_closed_appends :
    stateClosed.ws ≠ some true ∧
    (sendMessage stateClosed 0).1.messages ≠ stateClosed.messages ∧
    (sendMessage stateClosed 0).1.loading = true := by
  decide

/-- C7 (amended): a submission with no connection handle, or whose text is
empty or whitespace-only, is a no-op: the state is unchanged (no entry
appended, pending flag untouched) and nothing is sent.  Openness of the
socket is not part of the guard. -/
theorem send_noop_cases (s : ChatState) (now : Nat)
    (h : s.ws = none ∨ jsTrim s.input = []) :
    sendMessage s now = (s, none) := by
  have hg : ¬ (s.ws.isSome && !(jsTrim s.input == [])) = true := by
    rcases h with h | h <;> simp [h]
  rw [sendMessage_eq, if_neg hg]

/-- C7 witness: a whitespace-only submission on an open socket is a no-op. -/
theorem send_noop_cases_witness : sendMessage stateBlank 0 = (stateBlank, none) :=
  send_noop_cases stateBlank 0 (Or.inr (by decide))

/-- C10: no inbound event nor the close handler ever writes the pending
flag, and `sendMessage` sets it to true exactly when its guard accepts,
leaving it otherwise — submission is the only writer, and it only writes
`true`. -/
theorem loading_flag_writers (s : ChatState) (e : InEvent) (now : Nat) :
    (onmessage s e).loading = s.loading ∧
    (onclose s).loading = s.loading ∧
    (sendMessage s now).1.loading =
      (if s.ws.isSome && !(jsTrim s.input == []) then true else s.loading) := by
  refine ⟨rfl, rfl, ?_⟩
  rw [sendMessage_eq]
  by_cases hg : (s.ws.isSome && !(jsTrim s.input == [])) = true
  · rw [if_pos hg, if_pos hg]
  · rw [if_neg hg, if_neg hg]

/-! ### Claim C3: the emphasis rule of `formatMessage` -/

theorem startsStars_iff (l : List Char) :
    startsStars l = true ↔ 2 ≤ l.length ∧ l.take 2 = ['*', '*'] := by
  match l with
  | [] => simp [startsStars]
  | [a] => simp [startsStars]
  | a :: b :: t =>
    simp [startsStars, Nat.succ_le_succ, List.take]

/-- C3 counterexample: the renderer turns the input "**" into one emphasized
segment with empty text (the chunk passes both `startsWith("**")` and
`endsWith("**")` although its length is 2), not into a plain segment equal to
"**" as the claim states. -/
theorem render_stars_emphasized :
    formatMessage (chars "**") = [[Segment.strong [], Segment.br]] ∧
    Segment.strong ([] : List Char) ≠ Segment.plain (chars "**") := by
  decide

/-- C3 (amended): a chunk produced by the renderer's delimiter split is
emphasized if and only if its first two characters are `**` and its last two
characters are `**` — the two tests are independent, so they may overlap and
no minimum length of 4 is required; the emphasized text is the chunk with two
characters removed from each end (empty for chunks of length at most 4).  In
particular render("**") yields one emphasized segment with empty text. -/
theorem chunk_emphasis_rule (line chunk : List Char)
    (_h : chunk ∈ splitDelim line) :
    ((∃ t, chunkSeg chunk = Segment.strong t) ↔
      2 ≤ chunk.length ∧ chunk.take 2 = ['*', '*'] ∧
        chunk.reverse.take 2 = ['*', '*']) ∧
    (∀ t, chunkSeg chunk = Segment.strong t →
      t = (chunk.drop 2).take (chunk.length - 4)) ∧
    formatMessage (chars "**") = [[Segment.strong [], Segment.br]] := by
  have key : (startsStars chunk && startsStars chunk.reverse) = true ↔
      (2 ≤ chunk.length ∧ chunk.take 2 = ['*', '*'] ∧
        chunk.reverse.take 2 = ['*', '*']) := by
    rw [Bool.and_eq_true, startsStars_iff, startsStars_iff, List.length_reverse]
    constructor
    · rintro ⟨⟨hl, ht⟩, _, hrt⟩
      exact ⟨hl, ht, hrt⟩
    · rintro ⟨hl, ht, hrt⟩
      exact ⟨⟨hl, ht⟩, hl, hrt⟩
  refine ⟨?_, ?_, by decide⟩
  · by_cases hb : (startsStars chunk && startsStars chunk.reverse) = true
    · rw [← key]
      exact ⟨fun _ => hb, fun _ => ⟨_, by rw [chunkSeg, if_pos hb]⟩⟩
    · constructor
      · rintro ⟨t, hteq⟩
        rw [chunkSeg, if_neg hb] at hteq
        exact absurd hteq (by simp)
      · intro hrhs
        exact absurd (key.mpr hrhs) hb
  · intro t hteq
    by_cases hb : (startsStars chunk && startsStars chunk.reverse) = true
    · rw [chunkSeg, if_pos hb] at hteq
      exact (Segment.strong.injEq .. ▸ hteq).symm
    · rw [chunkSeg, if_neg hb] at hteq
      exact absurd hteq (by simp)

/-- C3 witness: the emphasis rule evaluated at the chunk "ab" of the split of
the line "ab". -/
theorem chunk_emphasis_rule_witness :
    ((∃ t, chunkSeg (chars "ab") = Segment.strong t) ↔
      2 ≤ (chars "ab").length ∧ (chars "ab").take 2 = ['*', '*'] ∧
        (chars "ab").reverse.take 2 = ['*', '*']) ∧
    (∀ t, chunkSeg (chars "ab") = Segment.strong t →
      t = ((chars "ab").drop 2).take ((chars "ab").length - 4)) ∧
    formatMessage (chars "**") = [[Segment.strong [], Segment.br]] :=
  chunk_emphasis_rule (chars "ab") (chars "ab") (by decide)

/-! ### Claims C8 and C9: SearchResults shaping -/

/-- An item with both an image and a non-empty thumbnail sequence. -/
def itemBoth : ResultItem :=
  { image := some (chars "img.png"), thumbnails := [chars "thumb.png"] }

/-- C8 counterexample: a category whose sequence holds only a null entry is
non-empty raw, so the filter `results[category].length > 0` keeps it and it is
displayed (with an empty card row), although it is empty after removing null
entries — the claim says it must not be displayed. -/
theorem null_only_category_displayed :
    SearchResults [(chars "news", [(none : Option ResultItem)])] =
      [(chars "news", [])] ∧
    List.filter Option.isSome [(none : Option ResultItem)] = [] := by
  decide

/-- C8 (amended): a category appears in the shaped view iff its raw item
sequence is non-empty (nullness of individual entries is not consulted for
the category test), its displayed items are those surviving the null filter,
and every displayed item is non-null; a category of only null entries is
still displayed, with no items. -/
theorem category_display_rule (results : SearchResultSet) (cat : List Char)
    (items : List (Option ResultItem)) :
    ((cat, items) ∈ SearchResults results ↔
      ∃ raw, (cat, raw) ∈ results ∧ 0 < raw.length ∧
        items = raw.filter Option.isSome) ∧
    (∀ p ∈ SearchResults results, ∀ it ∈ p.2, it.isSome = true) := by
  constructor
  · constructor
    · intro hmem
      obtain ⟨⟨c, raw⟩, hp, hgp⟩ := List.mem_map.mp hmem
      obtain ⟨hpr, hlen⟩ := List.mem_filter.mp hp
      obtain ⟨rfl, rfl⟩ := Prod.mk.injEq .. ▸ hgp
      exact ⟨raw, hpr, by simpa using hlen, rfl⟩
    · rintro ⟨raw, hpr, hlen, rfl⟩
      exact List.mem_map.mpr ⟨(cat, raw),
        List.mem_filter.mpr ⟨hpr, by simpa using hlen⟩, rfl⟩
  · intro p hp it hit
    obtain ⟨q, _, rfl⟩ := List.mem_map.mp hp
    exact (List.mem_filter.mp hit).2

/-- C9 counterexample: an item with both a (truthy) `image` and a non-empty
`thumbnails` sequence renders two images — the `image` and the first
thumbnail are guarded by two independent conditionals — so more than one
display image is resolved, and not only the `image`. -/
theorem both_images_displayed :
    displayImages itemBoth = [chars "img.png", chars "thumb.png"] ∧
    (displayImages itemBoth).length ≠ 1 := by
  decide

/-- C9 (amended): the `image` field (when present and non-empty, i.e. truthy)
and the first element of `thumbnails` (when that sequence is non-empty) are
each displayed, independently: an item with both shows both images with the
`image` first, an item with only one shows that one, and an item with a falsy
image and no thumbnails shows none. -/
theorem image_resolution_rule (it : ResultItem) :
    (∀ u t ts, it.image = some u → u ≠ [] → it.thumbnails = t :: ts →
      displayImages it = [u, t]) ∧
    (∀ u, it.image = some u → u ≠ [] → it.thumbnails = [] →
      displayImages it = [u]) ∧
    (∀ t ts, (it.image = none ∨ it.image = some []) → it.thumbnails = t :: ts →
      displayImages it = [t]) ∧
    ((it.image = none ∨ it.image = some []) → it.thumbnails = [] →
      displayImages it = []) := by
  refine ⟨?_, ?_, ?_, ?_⟩
  · intro u t ts hu hne hts
    simp [displayImages, hu, hts, hne]
  · intro u hu hne hts
    simp [displayImages, hu, hts, hne]
  · rintro t ts (hu | hu) hts <;> simp [displayImages, hu, hts]
  · rintro (hu | hu) hts <;> simp [displayImages, hu, hts]

end AgenticChat
